import Mathlib

/-!
# Verification of the Drug Discovery fingerprint pipeline (src/Drug.py)

Shallow embedding of the per-row pipeline: fetch a molecule JSON payload,
extract `molecule_structures.canonical_smiles`, generate a 2048-bit Morgan
fingerprint, accumulate, display and export as CSV.

External collaborators (the HTTP client, the JSON decoder, the
cheminformatics library and the CSV reader/writer) are modelled as explicit
parameters or faithful functional models, noted at each definition.
-/

namespace Drug

/-- A JSON-like value as produced by decoding an HTTP response body.
Covers the shapes the pipeline inspects: JSON null, strings, numbers and
objects (ordered field lists, first binding wins as in a Python dict built
by a JSON decoder, which keeps the last duplicate — duplicates are not
produced by decoders, so first-match lookup is faithful). -/
inductive JsonV where
  | null
  | str (s : String)
  | num (n : Int)
  | obj (fields : List (String × JsonV))

/-- Python truthiness of a decoded JSON value (`if molecule_data ...`,
`if smiles ...`): `None`, `""`, `0` and `{}` are falsy. -/
def truthy : JsonV → Bool
  | .null => false
  | .str s => !(s == "")
  | .num n => !(n == 0)
  | .obj fields => !fields.isEmpty

/-- A user-visible message emitted through the UI: `st.error` or `st.warning`. -/
inductive Msg where
  | error (text : String)
  | warning (text : String)
deriving DecidableEq

/-- Outcome of one HTTP GET for a given URL, as observed through the
`requests` client: a decoded JSON body on success, `netFail` for a
connection error / timeout / non-2xx status (raised by
`response.raise_for_status()`), `badJson` for a 2xx response whose body is
not valid JSON (`response.json()` raises `requests.exceptions.JSONDecodeError`,
a subclass of `RequestException` since requests 2.27, hence caught by the
handler in `fetch_molecule_json`). -/
inductive HttpOutcome where
  | netFail
  | badJson
  | ok (j : JsonV)

/-- The text of the `st.error` emitted by `fetch_molecule_json` on failure:
`f"Failed to fetch molecule data from {url}: {e}"`, with the exception text
abstracted to `"error"`. It mentions the URL but not the row identifier. -/
def fetchErrMsg (url : String) : String :=
  "Failed to fetch molecule data from " ++ url ++ ": error"

/-- `fetch_molecule_json(url)` from src/Drug.py lines 7-15: perform the GET
(modelled by the `world` parameter), return the decoded JSON on success;
on `RequestException` (network failure or malformed JSON body) emit an
`st.error` mentioning the URL and return `None`. -/
def fetch_molecule_json (world : String → HttpOutcome) (url : String) :
    Option JsonV × List Msg :=
  match world url with
  | .ok j => (some j, [])
  | .netFail => (none, [Msg.error (fetchErrMsg url)])
  | .badJson => (none, [Msg.error (fetchErrMsg url)])

/-- The configured fingerprint width (`nBits=2048` at line 22). -/
def nBits : Nat := 2048

/-- Folding a multiset of hashed atom-neighbourhood codes into a fixed-width
bit vector by modulo-indexed bit setting — the final step of
`AllChem.GetMorganFingerprintAsBitVect(mol, radius=2, nBits=2048)`, which by
the library's contract returns a vector of exactly `nBits` bits. -/
def foldToBits (hashes : List Nat) : List Bool :=
  hashes.foldl (fun bits h => bits.set (h % nBits) true) (List.replicate nBits false)

/-- The text of the `st.error` emitted at line 24 for a SMILES string the
molecular parser rejects. -/
def invalidSmilesMsg (s : String) : String := "Invalid SMILES: " ++ s

/-- `generate_fingerprint(smiles)` from src/Drug.py lines 17-28.
`Chem.MolFromSmiles` is modelled by the `chemParse` parameter, returning the
hashed neighbourhood codes of the parsed molecule, or `none` when parsing
fails (RDKit returns `None`). A non-string argument makes RDKit raise, which
the `except Exception` handler at line 26 catches, emitting the
`"Failed to generate fingerprint"` error and returning `None`. -/
def generate_fingerprint (chemParse : String → Option (List Nat)) (smiles : JsonV) :
    Option (List Bool) × List Msg :=
  match smiles with
  | .str s =>
    match chemParse s with
    | some m => (some (foldToBits m), [])
    | none => (none, [Msg.error (invalidSmilesMsg s)])
  | _ => (none, [Msg.error "Failed to generate fingerprint: exception"])

/-- Key membership in a decoded JSON object (first binding wins). -/
def containsKey (fields : List (String × JsonV)) (k : String) : Bool :=
  fields.any (fun p => p.1 == k)

/-- First-match field lookup in a decoded JSON object. -/
def lookupJ (fields : List (String × JsonV)) (k : String) : Option JsonV :=
  (fields.find? (fun p => p.1 == k)).map (fun p => p.2)

/-- Substring test on character lists (`pat` occurs inside `l`). -/
def containsSubL : List Char → List Char → Bool
  | [], pat => pat.isEmpty
  | l, pat =>
    match l with
    | [] => pat.isEmpty
    | _ :: rest => pat.isPrefixOf l || containsSubL rest pat

/-- Substring test on strings, as Python's `in` on two strings. -/
def containsSub (s pat : String) : Bool :=
  containsSubL s.data pat.data

/-- Python's `"molecule_structures" in molecule_data` (line 53), evaluated
only when `molecule_data` is truthy: key membership for a dict, substring
test for a string, and a `TypeError` (modelled as `.error`) for a number —
an uncaught exception that would crash the script. -/
def memTest (j : JsonV) : Except Unit Bool :=
  match j with
  | .obj fields => .ok (containsKey fields "molecule_structures")
  | .str s => .ok (containsSub s "molecule_structures")
  | _ => .error ()

/-- Python's `molecule_data["molecule_structures"]` (line 54): field access
for a dict (a missing key would be a `KeyError`), `TypeError` for any other
value — both uncaught. -/
def subscriptJ (j : JsonV) (k : String) : Except Unit JsonV :=
  match j with
  | .obj fields =>
    match lookupJ fields k with
    | some v => .ok v
    | none => .error ()
  | _ => .error ()

/-- Python's `.get("canonical_smiles", None)` (line 54): defaulting lookup
on a dict; on any non-dict value the attribute access raises an uncaught
`AttributeError` (modelled as `.error`). -/
def dictGet (j : JsonV) (k : String) : Except Unit (Option JsonV) :=
  match j with
  | .obj fields => .ok (lookupJ fields k)
  | _ => .error ()

/-- Truthiness of the extracted `smiles` (line 55): `None` (absent key) and
falsy JSON values (JSON null, empty string) take the warning branch. -/
def truthyOpt : Option JsonV → Bool
  | none => false
  | some j => truthy j

/-- One parsed input row: `ChEMBL_ID`, `URL`, `Target` (line 39). -/
structure CompoundRow where
  chembl_id : String
  url : String
  target : String

/-- One element of the accumulated `fingerprints` list (line 57): the tuple
`(chembl_id, smiles, fingerprint)` — note the fingerprint slot is optional
because line 57 appends the tuple even when `generate_fingerprint` returned
`None`. -/
abbrev Entry := String × JsonV × Option (List Bool)

/-- Warning text of line 61. -/
def noDataMsg (i : String) : String := "No molecule data for " ++ i

/-- Warning text of line 59. -/
def noSmilesMsg (i : String) : String := "No SMILES available for " ++ i

/-- The body of the per-row loop (lines 47-61): fetch, test
`molecule_data and "molecule_structures" in molecule_data`, extract
`canonical_smiles`, generate the fingerprint and append, or warn and skip.
Returns the optional appended entry and the messages emitted for the row;
`.error` marks an uncaught exception (a payload shape the code does not
guard against), which would crash the whole run. -/
def processRow (world : String → HttpOutcome) (chemParse : String → Option (List Nat))
    (row : CompoundRow) : Except Unit (Option Entry × List Msg) :=
  match fetch_molecule_json world row.url with
  | (none, msgs) => .ok (none, msgs ++ [Msg.warning (noDataMsg row.chembl_id)])
  | (some j, msgs) =>
    if truthy j then
      match memTest j with
      | .error u => .error u
      | .ok false => .ok (none, msgs ++ [Msg.warning (noDataMsg row.chembl_id)])
      | .ok true =>
        match subscriptJ j "molecule_structures" with
        | .error u => .error u
        | .ok ms =>
          match dictGet ms "canonical_smiles" with
          | .error u => .error u
          | .ok sm =>
            if truthyOpt sm then
              let gf := generate_fingerprint chemParse (sm.getD .null)
              .ok (some (row.chembl_id, sm.getD .null, gf.1), msgs ++ gf.2)
            else
              .ok (none, msgs ++ [Msg.warning (noSmilesMsg row.chembl_id)])
    else
      .ok (none, msgs ++ [Msg.warning (noDataMsg row.chembl_id)])

/-- The whole `for index, row in data.iterrows()` loop (lines 47-61):
process rows strictly in input order, accumulating appended entries and
emitted messages; an uncaught per-row exception aborts the run. -/
def runRows (world : String → HttpOutcome) (chemParse : String → Option (List Nat)) :
    List CompoundRow → Except Unit (List Entry × List Msg)
  | [] => .ok ([], [])
  | r :: rs =>
    match processRow world chemParse r with
    | .error u => .error u
    | .ok (ent, msgs) =>
      match runRows world chemParse rs with
      | .error u => .error u
      | .ok (ents, msgs2) => .ok (ent.toList ++ ents, msgs ++ msgs2)

/-- The displayed result table (lines 66-69): the comprehension
`[(chembl_id, smiles, list(fp)) for ... if fp is not None]` — entries whose
fingerprint is the failure value are filtered out here. -/
def fingerprint_df (fps : List Entry) : List (String × JsonV × List Bool) :=
  fps.filterMap (fun e =>
    match e.2.2 with
    | some fp => some (e.1, e.2.1, fp)
    | none => none)

/-- Modelled from the spec: the input-table parser (`pd.read_csv` at line
39, an external black box this repository only calls). Per the spec, the
input is a table with exactly three columns in fixed order (identifier,
URL, target label), and parse failure of the whole file — in particular a
wrong column count — is fatal and aborts before any row processing. The
input is taken already tokenised into rows of fields. -/
def parseInputTable : List (List String) → Except String (List CompoundRow)
  | [] => .ok []
  | r :: rs =>
    match r with
    | [i, u, t] =>
      match parseInputTable rs with
      | .ok rows => .ok ({ chembl_id := i, url := u, target := t } :: rows)
      | .error e => .error e
    | _ => .error "Error reading the file: wrong column count"

/-- Observable outcome of one run of `main` on an uploaded table: fatal
input-parse failure (line 43 returns before the loop), a crash from an
uncaught per-row exception, or a completed run with the accumulated
entries and messages. -/
inductive MainOutcome where
  | fatal (message : String)
  | crashed
  | done (fingerprints : List Entry) (messages : List Msg)

/-- `main()` from src/Drug.py lines 30-79 for one uploaded table: parse the
table (fatal on failure, before any row is processed), then run the per-row
loop. -/
def main (world : String → HttpOutcome) (chemParse : String → Option (List Nat))
    (table : List (List String)) : MainOutcome :=
  match parseInputTable table with
  | .error e => .fatal e
  | .ok rows =>
    match runRows world chemParse rows with
    | .error _ => .crashed
    | .ok (fps, msgs) => .done fps msgs

/-- The result table the run displays (lines 64-70): nothing on a fatal
parse failure or crash, and nothing when the accumulated list is empty
(the `if fingerprints:` guard). -/
def displayedResults : MainOutcome → List (String × JsonV × List Bool)
  | .done fps _ => if fps.isEmpty then [] else fingerprint_df fps
  | _ => []

/-! ## The CSV codec (export at lines 72-79, and re-parsing)

`fingerprint_df.to_csv(index=False)` with the default minimal quoting: a
field is wrapped in double quotes, inner quotes doubled, exactly when it
contains a comma, a quote or a newline; records are terminated by a
newline. The re-parser is the standard CSV scanner. Both are modelled on
character lists and wrapped for `String`. -/

/-- A field must be quoted when it contains the delimiter, the quote
character or the record terminator. -/
def needsQuote (f : List Char) : Bool :=
  f.any (fun c => c == ',' || c == '"' || c == '\n')

/-- Double every quote character of a field body. -/
def dupQuotes : List Char → List Char
  | [] => []
  | '"' :: rest => '"' :: '"' :: dupQuotes rest
  | c :: rest => c :: dupQuotes rest

/-- Minimal-quoting field encoder. -/
def escField (f : List Char) : List Char :=
  if needsQuote f then '"' :: (dupQuotes f ++ ['"']) else f

/-- Encode one record: fields joined by commas. -/
def encodeRowL : List (List Char) → List Char
  | [] => []
  | [f] => escField f
  | f :: fs => escField f ++ ',' :: encodeRowL fs

/-- Encode a table: each record terminated by a newline. -/
def encodeTableL : List (List Char) → List Char
  | [] => []
  | r :: rs => r ++ '\n' :: encodeTableL rs

/-- The CSV scanner: input, in-quotes flag, current field, current record.
Outside quotes a comma ends the field, a newline ends the record and a
quote enters quoted mode; inside quotes a doubled quote is a literal quote
and a single quote leaves quoted mode. -/
def scanCsv : List Char → Bool → List Char → List (List Char) → List (List (List Char))
  | [], _, fAcc, rAcc =>
    if fAcc.isEmpty && rAcc.isEmpty then [] else [rAcc ++ [fAcc]]
  | '"' :: '"' :: rest, true, fAcc, rAcc => scanCsv rest true (fAcc ++ ['"']) rAcc
  | '"' :: rest, true, fAcc, rAcc => scanCsv rest false fAcc rAcc
  | c :: rest, true, fAcc, rAcc => scanCsv rest true (fAcc ++ [c]) rAcc
  | ',' :: rest, false, fAcc, rAcc => scanCsv rest false [] (rAcc ++ [fAcc])
  | '\n' :: rest, false, fAcc, rAcc => (rAcc ++ [fAcc]) :: scanCsv rest false [] []
  | '"' :: rest, false, fAcc, rAcc => scanCsv rest true fAcc rAcc
  | c :: rest, false, fAcc, rAcc => scanCsv rest false (fAcc ++ [c]) rAcc

/-- CSV-encode a table of string fields. -/
def csvEncode (rows : List (List String)) : String :=
  String.mk (encodeTableL (rows.map (fun r => encodeRowL (r.map String.data))))

/-- Parse a CSV text back into records of string fields. -/
def csvParse (s : String) : List (List String) :=
  (scanCsv s.data false [] []).map (fun r => r.map String.mk)

/-- Render one bit the way Python prints the integers of `list(fp)`. -/
def showBit (b : Bool) : String := if b then "1" else "0"

/-- Render a bit vector the way `str(list(fp))` prints it in the CSV cell:
a bracketed, comma-separated list of 0/1 integers. -/
def showBits (bs : List Bool) : String :=
  "[" ++ String.intercalate ", " (bs.map showBit) ++ "]"

/-- The text a SMILES cell carries in the exported table. Only string
structures reach the exporter (a non-string `canonical_smiles` makes the
generator fail, so the row is filtered out of `fingerprint_df`). -/
def smilesText : JsonV → String
  | .str s => s
  | _ => ""

/-- The header row written by `to_csv` (line 68 column names). -/
def headerRow : List String := ["ChEMBL_ID", "SMILES", "Fingerprint"]

/-- One exported record of the result table. -/
def renderResult (x : String × JsonV × List Bool) : List String :=
  [x.1, smilesText x.2.1, showBits x.2.2]

/-- The downloadable CSV artifact (lines 73-79): header row then one
record per displayed result, in order. -/
def exportCsv (fps : List Entry) : String :=
  csvEncode (headerRow :: (fingerprint_df fps).map renderResult)

/-- The download artifact offered by the run: present only on a completed
run with a nonempty accumulated list (the `if fingerprints:` guard). -/
def downloadArtifact : MainOutcome → Option String
  | .done fps _ => if fps.isEmpty then none else some (exportCsv fps)
  | _ => none

/-- Payloads the row loop handles without raising an uncaught exception:
`molecule_structures`, when it is a key of the decoded object, must map to
an object (else `.get` raises `AttributeError` at line 54); a truthy
non-container payload makes the `in` test or the subscript raise a
`TypeError`. This is exactly the payload shape the spec's external
interface contract describes. -/
def crashFreeJson : JsonV → Bool
  | .null => true
  | .str s => !(containsSub s "molecule_structures")
  | .num n => n == 0
  | .obj fields =>
    match lookupJ fields "molecule_structures" with
    | some (.obj _) => true
    | some _ => false
    | none => true

/-- The full-success product of one row: the identifier, extracted
structure and bit vector the row contributes to the displayed table, or
`none` when any stage fails. -/
def rowResult (world : String → HttpOutcome) (chemParse : String → Option (List Nat))
    (r : CompoundRow) : Option (String × JsonV × List Bool) :=
  match processRow world chemParse r with
  | .ok (some (i, s, some b), _) => some (i, s, b)
  | _ => none

/-! ### Concrete instances used to exercise the theorems -/

/-- A payload holding a canonical SMILES string. -/
def goodPayload : JsonV :=
  JsonV.obj [("molecule_structures", JsonV.obj [("canonical_smiles", JsonV.str "CCO")])]

/-- A remote world exercising every row-level failure mode: a good payload,
a payload without the structures object, one with a null SMILES, one
lacking the key, a malformed JSON body, and network failure elsewhere. -/
def world1 (url : String) : HttpOutcome :=
  if url = "u_ok" then .ok goodPayload
  else if url = "u_nosmiles" then .ok (JsonV.obj [("molecule_structures", JsonV.obj [])])
  else if url = "u_null" then
    .ok (JsonV.obj [("molecule_structures", JsonV.obj [("canonical_smiles", JsonV.null)])])
  else if url = "u_nodata" then .ok (JsonV.obj [("x", JsonV.null)])
  else if url = "u_badjson" then .badJson
  else .netFail

/-- A molecular parser accepting exactly the SMILES string "CCO". -/
def chem1 (s : String) : Option (List Nat) :=
  if s = "CCO" then some [7, 4100] else none

/-- A remote world where every fetch fails with a network error. -/
def worldFail : String → HttpOutcome := fun _ => .netFail

/-- A remote world where every fetch returns a well-shaped payload whose
SMILES string is "XYZ". -/
def worldXYZ : String → HttpOutcome := fun _ =>
  .ok (JsonV.obj [("molecule_structures", JsonV.obj [("canonical_smiles", JsonV.str "XYZ")])])

/-- A molecular parser rejecting every structure string. -/
def chemNone : String → Option (List Nat) := fun _ => none

/-- A concrete input row. -/
def row1 : CompoundRow := { chembl_id := "CHEMBL1", url := "u1", target := "T" }

/-- A row whose fetch succeeds with a parsable SMILES. -/
def rowOk : CompoundRow := { chembl_id := "CHEMBLA", url := "u_ok", target := "T" }

/-- A row whose payload carries a structures object without `canonical_smiles`. -/
def rowNS : CompoundRow := { chembl_id := "CHEMBLN", url := "u_nosmiles", target := "T" }

/-- A row whose payload carries a JSON-null `canonical_smiles`. -/
def rowNull : CompoundRow := { chembl_id := "CHEMBLZ", url := "u_null", target := "T" }

/-- A row whose payload lacks the `molecule_structures` key. -/
def rowND : CompoundRow := { chembl_id := "CHEMBLD", url := "u_nodata", target := "T" }

/-- A row whose response body is malformed JSON. -/
def rowBJ : CompoundRow := { chembl_id := "CHEMBLB", url := "u_badjson", target := "T" }

/-- Rows exercising every per-row outcome at once. -/
def rowsAll : List CompoundRow := [rowOk, rowNS, rowNull, rowND, rowBJ, row1]

/-- An accumulated list holding one full success and one entry whose
fingerprint generation failed. -/
def fpsMix : List Entry :=
  [("CHEMBLA", JsonV.str "CCO", some [true, false]), ("CHEMBLB", JsonV.str "XYZ", none)]

/-! ## Lemmas: the CSV scanner inverts the CSV encoder -/

theorem stringMk_data (s : String) : String.mk s.data = s := by
  cases s
  rfl

theorem scanCsv_litQuote (rest : List Char) (fAcc : List Char) (rAcc : List (List Char)) :
    scanCsv ('"' :: '"' :: rest) true fAcc rAcc = scanCsv rest true (fAcc ++ ['"']) rAcc := by
  simp [scanCsv]

theorem scanCsv_closeQuote (rest : List Char) (fAcc : List Char) (rAcc : List (List Char))
    (h : rest.head? ≠ some '"') :
    scanCsv ('"' :: rest) true fAcc rAcc = scanCsv rest false fAcc rAcc := by
  cases rest with
  | nil => simp [scanCsv]
  | cons c cs =>
    have hc : c ≠ '"' := by
      intro hc
      exact h (by simp [hc])
    simp [scanCsv, hc]

theorem scanCsv_quotedChar (c : Char) (rest : List Char) (fAcc : List Char)
    (rAcc : List (List Char)) (h : c ≠ '"') :
    scanCsv (c :: rest) true fAcc rAcc = scanCsv rest true (fAcc ++ [c]) rAcc := by
  simp [scanCsv, h]

theorem scanCsv_comma (rest : List Char) (fAcc : List Char) (rAcc : List (List Char)) :
    scanCsv (',' :: rest) false fAcc rAcc = scanCsv rest false [] (rAcc ++ [fAcc]) := by
  simp [scanCsv]

theorem scanCsv_newline (rest : List Char) (fAcc : List Char) (rAcc : List (List Char)) :
    scanCsv ('\n' :: rest) false fAcc rAcc = (rAcc ++ [fAcc]) :: scanCsv rest false [] [] := by
  simp [scanCsv]

theorem scanCsv_enterQuote (rest : List Char) (fAcc : List Char) (rAcc : List (List Char)) :
    scanCsv ('"' :: rest) false fAcc rAcc = scanCsv rest true fAcc rAcc := by
  simp [scanCsv]

theorem scanCsv_plainChar (c : Char) (rest : List Char) (fAcc : List Char)
    (rAcc : List (List Char)) (h1 : c ≠ ',') (h2 : c ≠ '\n') (h3 : c ≠ '"') :
    scanCsv (c :: rest) false fAcc rAcc = scanCsv rest false (fAcc ++ [c]) rAcc := by
  simp [scanCsv, h1, h2, h3]

/-- Scanning the quote-doubled body of a field, in quoted mode, up to the
closing quote, appends exactly the field body. -/
theorem scanCsv_dupQuotes (f : List Char) (rest : List Char) (fAcc : List Char)
    (rAcc : List (List Char)) (h : rest.head? ≠ some '"') :
    scanCsv (dupQuotes f ++ '"' :: rest) true fAcc rAcc
      = scanCsv rest false (fAcc ++ f) rAcc := by
  induction f generalizing fAcc with
  | nil => simpa [dupQuotes] using scanCsv_closeQuote rest fAcc rAcc h
  | cons c f ih =>
    by_cases hc : c = '"'
    · subst hc
      show scanCsv ('"' :: '"' :: (dupQuotes f ++ '"' :: rest)) true fAcc rAcc = _
      rw [scanCsv_litQuote, ih (fAcc ++ ['"'])]
      simp
    · have hd : dupQuotes (c :: f) = c :: dupQuotes f := by
        rw [dupQuotes.eq_def]
        cases hcc : c
        simp_all [dupQuotes]
      rw [hd, List.cons_append, scanCsv_quotedChar c _ _ _ hc, ih (fAcc ++ [c])]
      simp

/-- Scanning a field body free of special characters, in unquoted mode,
appends exactly the field body. -/
theorem scanCsv_plainField (f : List Char) (rest : List Char) (fAcc : List Char)
    (rAcc : List (List Char))
    (h : ∀ c ∈ f, c ≠ ',' ∧ c ≠ '"' ∧ c ≠ '\n') :
    scanCsv (f ++ rest) false fAcc rAcc = scanCsv rest false (fAcc ++ f) rAcc := by
  induction f generalizing fAcc with
  | nil => simp
  | cons c f ih =>
    have hc := h c (by simp)
    simp only [List.cons_append]
    rw [scanCsv_plainChar c _ _ _ hc.1 hc.2.2 hc.2.1, ih (fAcc ++ [c])
      (fun d hd => h d (by simp [hd]))]
    simp

/-- Scanning one minimally-quoted field appends exactly the field body. -/
theorem scanCsv_escField (f : List Char) (rest : List Char) (fAcc : List Char)
    (rAcc : List (List Char)) (h : rest.head? ≠ some '"') :
    scanCsv (escField f ++ rest) false fAcc rAcc = scanCsv rest false (fAcc ++ f) rAcc := by
  by_cases hq : needsQuote f
  · simp only [escField, if_pos hq, List.cons_append, List.append_assoc,
      List.singleton_append, List.nil_append]
    rw [scanCsv_enterQuote, scanCsv_dupQuotes f rest fAcc rAcc h]
  · have h2 : ∀ x ∈ f, (¬x = ',' ∧ ¬x = '"') ∧ ¬x = '\n' := by
      simpa [needsQuote] using hq
    have hchars : ∀ c ∈ f, c ≠ ',' ∧ c ≠ '"' ∧ c ≠ '\n' :=
      fun c hc => ⟨(h2 c hc).1.1, (h2 c hc).1.2, (h2 c hc).2⟩
    simp only [escField, if_neg hq]
    exact scanCsv_plainField f rest fAcc rAcc hchars

/-- Scanning one encoded record followed by its newline emits exactly the
record's fields, appended to the accumulated record. -/
theorem scanCsv_row (f : List Char) (fs : List (List Char)) (rest : List Char)
    (rAcc : List (List Char)) :
    scanCsv (encodeRowL (f :: fs) ++ '\n' :: rest) false [] rAcc
      = (rAcc ++ f :: fs) :: scanCsv rest false [] [] := by
  induction fs generalizing f rAcc with
  | nil =>
    simp only [encodeRowL]
    rw [scanCsv_escField f _ _ _ (by simp), List.nil_append, scanCsv_newline]
  | cons f2 fs ih =>
    simp only [encodeRowL, List.append_assoc, List.cons_append]
    rw [scanCsv_escField f _ _ _ (by simp), List.nil_append, scanCsv_comma, ih f2]
    simp

/-- Scanning an encoded table of nonempty records recovers the table. -/
theorem scanCsv_table (rows : List (List (List Char))) (h : ∀ r ∈ rows, r ≠ []) :
    scanCsv (encodeTableL (rows.map encodeRowL)) false [] [] = rows := by
  induction rows with
  | nil => simp [encodeTableL, scanCsv]
  | cons r rs ih =>
    match r, h r (by simp) with
    | f :: fs, _ =>
      simp only [List.map_cons, encodeTableL]
      rw [scanCsv_row, ih (fun q hq => h q (by simp [hq]))]
      simp

/-- Unpacking the characters of the fields recovers the fields. -/
theorem mapMk_mapData (r : List String) : (r.map String.data).map String.mk = r := by
  rw [List.map_map]
  have h : (String.mk ∘ String.data) = id := by
    funext s
    exact stringMk_data s
  rw [h, List.map_id]

/-- Round-trip of the CSV codec on tables of nonempty records. -/
theorem csvParse_csvEncode (rows : List (List String)) (h : ∀ r ∈ rows, r ≠ []) :
    csvParse (csvEncode rows) = rows := by
  unfold csvParse csvEncode
  have hmap : (rows.map (fun r => encodeRowL (r.map String.data)))
      = (rows.map (fun r => r.map String.data)).map encodeRowL := by
    simp [List.map_map]
  rw [hmap, scanCsv_table (rows.map (fun r => r.map String.data))
    (by intro q hq
        rw [List.mem_map] at hq
        obtain ⟨r, hr, hq2⟩ := hq
        subst hq2
        simpa using h r hr)]
  rw [List.map_map]
  have h2 : ((fun r : List (List Char) => r.map String.mk)
      ∘ fun r : List String => r.map String.data) = id := by
    funext r
    exact mapMk_mapData r
  rw [h2, List.map_id]

/-- The exported artifact re-parses to the header followed by the rendered
displayed results, in order. -/
theorem exportCsv_parse (fps : List Entry) :
    csvParse (exportCsv fps) = headerRow :: (fingerprint_df fps).map renderResult := by
  unfold exportCsv
  apply csvParse_csvEncode
  intro r hr
  rcases List.mem_cons.1 hr with h1 | h2
  · subst h1
    simp [headerRow]
  · rw [List.mem_map] at h2
    obtain ⟨x, _, hx⟩ := h2
    subst hx
    simp [renderResult]

/-! ## Lemmas: the fingerprint generator -/

theorem foldl_set_length (hs : List Nat) :
    ∀ init : List Bool,
      (hs.foldl (fun bits hsh => bits.set (hsh % nBits) true) init).length = init.length := by
  induction hs with
  | nil => intro init; rfl
  | cons a hs ih =>
    intro init
    rw [List.foldl_cons, ih]
    exact List.length_set init (a % nBits) true

theorem foldToBits_length (hs : List Nat) : (foldToBits hs).length = 2048 := by
  unfold foldToBits
  rw [foldl_set_length, List.length_replicate]
  rfl

theorem generate_fingerprint_some_length (c : String → Option (List Nat)) (s : JsonV)
    (fp : List Bool) (msgs : List Msg)
    (h : generate_fingerprint c s = (some fp, msgs)) : fp.length = 2048 := by
  cases s with
  | str t =>
    cases hc : c t with
    | some m =>
      simp only [generate_fingerprint, hc, Prod.mk.injEq, Option.some.injEq] at h
      rw [← h.1]
      exact foldToBits_length m
    | none => simp [generate_fingerprint, hc] at h
  | null => simp [generate_fingerprint] at h
  | num n => simp [generate_fingerprint] at h
  | obj fields => simp [generate_fingerprint] at h

theorem generate_fingerprint_none_error (c : String → Option (List Nat)) (s : JsonV)
    (msgs : List Msg) (h : generate_fingerprint c s = (none, msgs)) :
    ∃ t, Msg.error t ∈ msgs := by
  cases s with
  | str t =>
    cases hc : c t with
    | some m => simp [generate_fingerprint, hc] at h
    | none =>
      simp only [generate_fingerprint, hc, Prod.mk.injEq] at h
      exact ⟨invalidSmilesMsg t, by simp [← h.2]⟩
  | null =>
    simp only [generate_fingerprint, Prod.mk.injEq] at h
    exact ⟨"Failed to generate fingerprint: exception", by rw [← h.2]; simp⟩
  | num n =>
    simp only [generate_fingerprint, Prod.mk.injEq] at h
    exact ⟨"Failed to generate fingerprint: exception", by rw [← h.2]; simp⟩
  | obj fields =>
    simp only [generate_fingerprint, Prod.mk.injEq] at h
    exact ⟨"Failed to generate fingerprint: exception", by rw [← h.2]; simp⟩

/-! ## Lemmas: JSON object lookup -/

theorem containsKey_of_lookupJ (fields : List (String × JsonV)) (k : String) (v : JsonV)
    (h : lookupJ fields k = some v) : containsKey fields k = true := by
  unfold lookupJ at h
  unfold containsKey
  cases hf : fields.find? (fun p => p.1 == k) with
  | none => rw [hf] at h; simp at h
  | some q =>
    rw [List.any_eq_true]
    have hq := List.find?_some hf
    exact ⟨q, List.mem_of_find?_eq_some hf, hq⟩

theorem lookupJ_isSome_of_containsKey (fields : List (String × JsonV)) (k : String)
    (h : containsKey fields k = true) : ∃ v, lookupJ fields k = some v := by
  unfold containsKey at h
  rw [List.any_eq_true] at h
  obtain ⟨p, hp, hpk⟩ := h
  unfold lookupJ
  cases hf : fields.find? (fun q => q.1 == k) with
  | some q => exact ⟨q.2, by simp⟩
  | none =>
    have := List.find?_eq_none.1 hf p hp
    simp_all

theorem lookupJ_ne_nil (fields : List (String × JsonV)) (k : String) (v : JsonV)
    (h : lookupJ fields k = some v) : fields ≠ [] := by
  intro he
  subst he
  simp [lookupJ] at h

/-! ## Lemmas: the per-row step -/

theorem processRow_fetchFail (w : String → HttpOutcome) (c : String → Option (List Nat))
    (r : CompoundRow) (h : w r.url = .netFail ∨ w r.url = .badJson) :
    processRow w c r
      = .ok (none, [Msg.error (fetchErrMsg r.url), Msg.warning (noDataMsg r.chembl_id)]) := by
  rcases h with h | h <;> simp [processRow, fetch_molecule_json, h]

/-- Reduction of the row step once the fetch has returned a payload. -/
theorem processRow_ok_payload (w : String → HttpOutcome) (c : String → Option (List Nat))
    (r : CompoundRow) (j : JsonV) (hw : w r.url = .ok j) :
    processRow w c r =
      (if truthy j then
        match memTest j with
        | .error u => .error u
        | .ok false => .ok (none, [Msg.warning (noDataMsg r.chembl_id)])
        | .ok true =>
          match subscriptJ j "molecule_structures" with
          | .error u => .error u
          | .ok ms =>
            match dictGet ms "canonical_smiles" with
            | .error u => .error u
            | .ok sm =>
              if truthyOpt sm then
                .ok (some (r.chembl_id, sm.getD .null,
                      (generate_fingerprint c (sm.getD .null)).1),
                    (generate_fingerprint c (sm.getD .null)).2)
              else .ok (none, [Msg.warning (noSmilesMsg r.chembl_id)])
      else .ok (none, [Msg.warning (noDataMsg r.chembl_id)])) := by
  unfold processRow fetch_molecule_json
  rw [hw]
  rfl

/-- Inversion: an appended entry always carries the row's identifier, the
extracted structure, and exactly the output of the fingerprint generator on
that structure; the row's messages are the generator's messages. -/
theorem processRow_some_inv (w : String → HttpOutcome) (c : String → Option (List Nat))
    (r : CompoundRow) (e : Entry) (m : List Msg)
    (hpr : processRow w c r = .ok (some e, m)) :
    ∃ sj, e = (r.chembl_id, sj, (generate_fingerprint c sj).1)
      ∧ m = (generate_fingerprint c sj).2 := by
  cases hw : w r.url
  case netFail =>
    rw [processRow_fetchFail w c r (Or.inl hw)] at hpr
    simp at hpr
  case badJson =>
    rw [processRow_fetchFail w c r (Or.inr hw)] at hpr
    simp at hpr
  case ok j =>
    rw [processRow_ok_payload w c r j hw] at hpr
    split at hpr
    · split at hpr
      · simp at hpr
      · simp at hpr
      · split at hpr
        · simp at hpr
        · split at hpr
          · simp at hpr
          · split at hpr
            · simp only [Except.ok.injEq, Prod.mk.injEq, Option.some.injEq] at hpr
              exact ⟨_, hpr.1.symm, hpr.2.symm⟩
            · simp at hpr
    · simp at hpr

/-- A payload carrying a `molecule_structures` object whose
`canonical_smiles` is absent or JSON null takes the "no SMILES available"
warning branch and appends nothing. -/
theorem truthy_obj_of_ne_nil (fields : List (String × JsonV)) (h : fields ≠ []) :
    truthy (JsonV.obj fields) = true := by
  cases fields with
  | nil => exact absurd rfl h
  | cons p l => rfl

theorem processRow_noSmiles (w : String → HttpOutcome) (c : String → Option (List Nat))
    (r : CompoundRow) (fobj : List (String × JsonV)) (ms : List (String × JsonV))
    (hw : w r.url = .ok (JsonV.obj fobj))
    (hms : lookupJ fobj "molecule_structures" = some (JsonV.obj ms))
    (hcs : lookupJ ms "canonical_smiles" = none
      ∨ lookupJ ms "canonical_smiles" = some JsonV.null) :
    processRow w c r = .ok (none, [Msg.warning (noSmilesMsg r.chembl_id)]) := by
  have hkey := containsKey_of_lookupJ fobj "molecule_structures" (JsonV.obj ms) hms
  have hne : fobj ≠ [] := lookupJ_ne_nil fobj "molecule_structures" (JsonV.obj ms) hms
  rw [processRow_ok_payload w c r (JsonV.obj fobj) hw]
  have htr := truthy_obj_of_ne_nil fobj hne
  have hmem : memTest (JsonV.obj fobj) = .ok true := by
    simp [memTest, hkey]
  have hsub : subscriptJ (JsonV.obj fobj) "molecule_structures" = .ok (JsonV.obj ms) := by
    simp [subscriptJ, hms]
  rcases hcs with hcs | hcs <;>
    simp [htr, hmem, hsub, dictGet, hcs, truthyOpt, truthy, hne]

/-- With a crash-free payload (or a failing fetch), the row step never
raises an uncaught exception. -/
theorem processRow_ok_of_crashFree (w : String → HttpOutcome) (c : String → Option (List Nat))
    (r : CompoundRow) (h : ∀ j, w r.url = .ok j → crashFreeJson j = true) :
    ∃ p, processRow w c r = .ok p := by
  cases hw : w r.url
  case netFail => exact ⟨_, processRow_fetchFail w c r (Or.inl hw)⟩
  case badJson => exact ⟨_, processRow_fetchFail w c r (Or.inr hw)⟩
  case ok j =>
    have hcf := h j hw
    rw [processRow_ok_payload w c r j hw]
    cases j with
    | null => simp [truthy]
    | num n =>
      have hn : n = 0 := by simpa [crashFreeJson] using hcf
      subst hn
      simp [truthy]
    | str s =>
      have hns : containsSub s "molecule_structures" = false := by
        simpa [crashFreeJson] using hcf
      by_cases hse : s = ""
      · subst hse
        simp [truthy]
      · have htr : truthy (JsonV.str s) = true := by simp [truthy, hse]
        rw [if_pos htr]
        simp [memTest, hns]
    | obj fields =>
      by_cases hfe : fields = []
      · subst hfe
        simp [truthy]
      · have htr := truthy_obj_of_ne_nil fields hfe
        rw [if_pos htr]
        cases hck : containsKey fields "molecule_structures" with
        | false => simp [memTest, hck]
        | true =>
          obtain ⟨v, hv⟩ := lookupJ_isSome_of_containsKey fields "molecule_structures" hck
          have hvobj : ∃ ms2, v = JsonV.obj ms2 := by
            simp only [crashFreeJson] at hcf
            rw [hv] at hcf
            cases v with
            | obj ms2 => exact ⟨ms2, rfl⟩
            | null => simp at hcf
            | str s => simp at hcf
            | num n => simp at hcf
          obtain ⟨ms, rfl⟩ := hvobj
          have hsub : subscriptJ (JsonV.obj fields) "molecule_structures" = .ok (JsonV.obj ms) := by
            simp [subscriptJ, hv]
          simp only [memTest, hck, hsub, dictGet]
          by_cases hto : truthyOpt (lookupJ ms "canonical_smiles")
          · simp [hto]
          · simp [hto]

/-- The displayed contribution of one row equals its full-success product. -/
theorem df_single (w : String → HttpOutcome) (c : String → Option (List Nat))
    (r : CompoundRow) (ent : Option Entry) (m : List Msg)
    (hpr : processRow w c r = .ok (ent, m)) :
    fingerprint_df ent.toList = (rowResult w c r).toList := by
  unfold rowResult
  rw [hpr]
  match ent with
  | none => rfl
  | some (i, s, some b) => rfl
  | some (i, s, none) => rfl

/-! ## Lemmas: the whole loop -/

/-- The loop on `r :: rest`, when the row step appends nothing, is the loop
on `rest` with the row's messages prepended. -/
theorem runRows_cons_skip (w : String → HttpOutcome) (c : String → Option (List Nat))
    (r : CompoundRow) (rest : List CompoundRow) (m : List Msg)
    (hpr : processRow w c r = .ok (none, m)) (fps : List Entry) (msgs : List Msg)
    (hrest : runRows w c rest = .ok (fps, msgs)) :
    runRows w c (r :: rest) = .ok (fps, m ++ msgs) := by
  simp [runRows, hpr, hrest]

/-- Row order: the displayed table of a completed run is the input row
sequence, restricted — in order — to the rows whose pipeline fully
succeeded, each replaced by its full-success product. -/
theorem runRows_df_order (w : String → HttpOutcome) (c : String → Option (List Nat)) :
    ∀ (rows : List CompoundRow) (fps : List Entry) (msgs : List Msg),
      runRows w c rows = .ok (fps, msgs) →
      fingerprint_df fps = rows.filterMap (rowResult w c) := by
  intro rows
  induction rows with
  | nil =>
    intro fps msgs h
    simp only [runRows, Except.ok.injEq, Prod.mk.injEq] at h
    rw [← h.1]
    rfl
  | cons r rs ih =>
    intro fps msgs h
    cases hpr : processRow w c r with
    | error u =>
      have hrun : runRows w c (r :: rs) = .error u := by simp [runRows, hpr]
      rw [hrun] at h
      simp at h
    | ok p =>
      obtain ⟨ent, m⟩ := p
      cases hrest : runRows w c rs with
      | error u =>
        have hrun : runRows w c (r :: rs) = .error u := by simp [runRows, hpr, hrest]
        rw [hrun] at h
        simp at h
      | ok q =>
        obtain ⟨ents, m2⟩ := q
        have hrun : runRows w c (r :: rs) = .ok (ent.toList ++ ents, m ++ m2) := by
          simp [runRows, hpr, hrest]
        rw [hrun] at h
        simp only [Except.ok.injEq, Prod.mk.injEq] at h
        rw [← h.1]
        unfold fingerprint_df
        rw [List.filterMap_append, List.filterMap_cons]
        have hdf := df_single w c r ent m hpr
        unfold fingerprint_df at hdf
        rw [hdf]
        have hq := ih ents m2 hrest
        unfold fingerprint_df at hq
        rw [hq]
        cases hrr : rowResult w c r <;> simp

/-- Origin: every accumulated entry was appended by the row step of some
input row. -/
theorem runRows_entry_origin (w : String → HttpOutcome) (c : String → Option (List Nat)) :
    ∀ (rows : List CompoundRow) (fps : List Entry) (msgs : List Msg),
      runRows w c rows = .ok (fps, msgs) →
      ∀ e ∈ fps, ∃ r ∈ rows, ∃ m, processRow w c r = .ok (some e, m) := by
  intro rows
  induction rows with
  | nil =>
    intro fps msgs h
    simp only [runRows, Except.ok.injEq, Prod.mk.injEq] at h
    rw [← h.1]
    intro e he
    simp at he
  | cons r rs ih =>
    intro fps msgs h
    cases hpr : processRow w c r with
    | error u =>
      have hrun : runRows w c (r :: rs) = .error u := by simp [runRows, hpr]
      rw [hrun] at h
      simp at h
    | ok p =>
      obtain ⟨ent, m⟩ := p
      cases hrest : runRows w c rs with
      | error u =>
        have hrun : runRows w c (r :: rs) = .error u := by simp [runRows, hpr, hrest]
        rw [hrun] at h
        simp at h
      | ok q =>
        obtain ⟨ents, m2⟩ := q
        have hrun : runRows w c (r :: rs) = .ok (ent.toList ++ ents, m ++ m2) := by
          simp [runRows, hpr, hrest]
        rw [hrun] at h
        simp only [Except.ok.injEq, Prod.mk.injEq] at h
        rw [← h.1]
        intro e he
        rcases List.mem_append.1 he with he1 | he2
        · cases ent with
          | none => simp at he1
          | some e0 =>
            have : e = e0 := by simpa using he1
            subst this
            exact ⟨r, by simp, m, hpr⟩
        · obtain ⟨r2, hr2, m3, hm3⟩ := ih ents m2 hrest e he2
          exact ⟨r2, by simp [hr2], m3, hm3⟩

/-- Every accumulated entry whose fingerprint slot is the failure value is
accompanied by an error-level message in the run's message log. -/
theorem runRows_failed_entry_error (w : String → HttpOutcome) (c : String → Option (List Nat)) :
    ∀ (rows : List CompoundRow) (fps : List Entry) (msgs : List Msg),
      runRows w c rows = .ok (fps, msgs) →
      ∀ e ∈ fps, e.2.2 = none → ∃ t, Msg.error t ∈ msgs := by
  intro rows
  induction rows with
  | nil =>
    intro fps msgs h
    simp only [runRows, Except.ok.injEq, Prod.mk.injEq] at h
    rw [← h.1]
    intro e he
    simp at he
  | cons r rs ih =>
    intro fps msgs h
    cases hpr : processRow w c r with
    | error u =>
      have hrun : runRows w c (r :: rs) = .error u := by simp [runRows, hpr]
      rw [hrun] at h
      simp at h
    | ok p =>
      obtain ⟨ent, m⟩ := p
      cases hrest : runRows w c rs with
      | error u =>
        have hrun : runRows w c (r :: rs) = .error u := by simp [runRows, hpr, hrest]
        rw [hrun] at h
        simp at h
      | ok q =>
        obtain ⟨ents, m2⟩ := q
        have hrun : runRows w c (r :: rs) = .ok (ent.toList ++ ents, m ++ m2) := by
          simp [runRows, hpr, hrest]
        rw [hrun] at h
        simp only [Except.ok.injEq, Prod.mk.injEq] at h
        rw [← h.1, ← h.2]
        intro e he hnone
        rcases List.mem_append.1 he with he1 | he2
        · cases ent with
          | none => simp at he1
          | some e0 =>
            have heq : e = e0 := by simpa using he1
            subst heq
            obtain ⟨sj, hesh, hmsh⟩ := processRow_some_inv w c r e m hpr
            have hgen : generate_fingerprint c sj = (none, m) := by
              have h1 : (generate_fingerprint c sj).1 = none := by
                rw [hesh] at hnone
                simpa using hnone
              rw [hmsh, ← h1]
            obtain ⟨t, ht⟩ := generate_fingerprint_none_error c sj m hgen
            exact ⟨t, List.mem_append.2 (Or.inl ht)⟩
        · obtain ⟨t, ht⟩ := ih ents m2 hrest e he2 hnone
          exact ⟨t, List.mem_append.2 (Or.inr ht)⟩

/-- If every row carrying a given identifier has a failing fetch, that
identifier appears in no accumulated entry. -/
theorem runRows_id_excluded (w : String → HttpOutcome) (c : String → Option (List Nat))
    (i : String) :
    ∀ (rows : List CompoundRow) (fps : List Entry) (msgs : List Msg),
      runRows w c rows = .ok (fps, msgs) →
      (∀ r ∈ rows, r.chembl_id = i → w r.url = .netFail ∨ w r.url = .badJson) →
      ∀ s b, (i, s, b) ∉ fps := by
  intro rows
  induction rows with
  | nil =>
    intro fps msgs h hfail
    simp only [runRows, Except.ok.injEq, Prod.mk.injEq] at h
    rw [← h.1]
    intro s b hmem
    simp at hmem
  | cons r rs ih =>
    intro fps msgs h hfail
    cases hpr : processRow w c r with
    | error u =>
      have hrun : runRows w c (r :: rs) = .error u := by simp [runRows, hpr]
      rw [hrun] at h
      simp at h
    | ok p =>
      obtain ⟨ent, m⟩ := p
      cases hrest : runRows w c rs with
      | error u =>
        have hrun : runRows w c (r :: rs) = .error u := by simp [runRows, hpr, hrest]
        rw [hrun] at h
        simp at h
      | ok q =>
        obtain ⟨ents, m2⟩ := q
        have hrun : runRows w c (r :: rs) = .ok (ent.toList ++ ents, m ++ m2) := by
          simp [runRows, hpr, hrest]
        rw [hrun] at h
        simp only [Except.ok.injEq, Prod.mk.injEq] at h
        rw [← h.1]
        intro s b hmem
        rcases List.mem_append.1 hmem with he1 | he2
        · cases ent with
          | none => simp at he1
          | some e0 =>
            have heq : (i, s, b) = e0 := by simpa using he1
            obtain ⟨sj, hesh, _⟩ := processRow_some_inv w c r e0 m hpr
            have hid : r.chembl_id = i := by
              rw [hesh] at heq
              exact (congrArg Prod.fst heq).symm
            have hff := hfail r (by simp) hid
            rw [processRow_fetchFail w c r hff] at hpr
            simp at hpr
        · exact ih ents m2 hrest (fun r2 hr2 hid => hfail r2 (by simp [hr2]) hid) s b he2

/-- With crash-free payloads the loop completes, whatever the rows. -/
theorem runRows_ok_of_crashFree (w : String → HttpOutcome) (c : String → Option (List Nat))
    (hcf : ∀ url j, w url = .ok j → crashFreeJson j = true) :
    ∀ rows : List CompoundRow, ∃ fps msgs, runRows w c rows = .ok (fps, msgs) := by
  intro rows
  induction rows with
  | nil => exact ⟨[], [], rfl⟩
  | cons r rs ih =>
    obtain ⟨p, hp⟩ := processRow_ok_of_crashFree w c r (fun j hj => hcf r.url j hj)
    obtain ⟨fps, msgs, hrest⟩ := ih
    obtain ⟨ent, m⟩ := p
    exact ⟨ent.toList ++ fps, m ++ msgs, by simp [runRows, hp, hrest]⟩

/-- A table holding a row without exactly three fields fails to parse. -/
theorem parseInputTable_error (table : List (List String))
    (h : ∃ r ∈ table, r.length ≠ 3) :
    ∃ e, parseInputTable table = .error e := by
  induction table with
  | nil => simp at h
  | cons r rs ih =>
    obtain ⟨q, hq, hql⟩ := h
    rcases List.mem_cons.1 hq with hq1 | hq2
    · subst hq1
      rcases q with _ | ⟨a, _ | ⟨b, _ | ⟨c, _ | ⟨d, tl⟩⟩⟩⟩ <;>
        first
          | (exact absurd rfl hql)
          | (exact ⟨"Error reading the file: wrong column count", by simp [parseInputTable]⟩)
    · obtain ⟨e, he⟩ := ih ⟨q, hq2, hql⟩
      rcases r with _ | ⟨a, _ | ⟨b, _ | ⟨c, _ | ⟨d, tl⟩⟩⟩⟩ <;>
        simp [parseInputTable, he]

/-- Membership in the displayed table unpacks to membership of the
corresponding success entry in the accumulated list. -/
theorem mem_fingerprint_df (fps : List Entry) (x : String × JsonV × List Bool) :
    x ∈ fingerprint_df fps ↔ (x.1, x.2.1, some x.2.2) ∈ fps := by
  unfold fingerprint_df
  rw [List.mem_filterMap]
  constructor
  · rintro ⟨e, he, hfe⟩
    obtain ⟨i, s, ob⟩ := e
    cases ob with
    | none => simp at hfe
    | some fp =>
      simp only [Option.some.injEq] at hfe
      rw [← hfe]
      exact he
  · intro he
    exact ⟨(x.1, x.2.1, some x.2.2), he, rfl⟩

/-- The displayed table has exactly one row per success entry. -/
theorem fingerprint_df_length (fps : List Entry) :
    (fingerprint_df fps).length = (fps.filter (fun e => e.2.2.isSome)).length := by
  induction fps with
  | nil => rfl
  | cons e fps ih =>
    obtain ⟨i, s, ob⟩ := e
    cases ob with
    | none =>
      have h1 : fingerprint_df ((i, s, none) :: fps) = fingerprint_df fps := by
        simp [fingerprint_df]
      rw [h1, List.filter_cons]
      simpa using ih
    | some b =>
      have h1 : fingerprint_df ((i, s, some b) :: fps) = (i, s, b) :: fingerprint_df fps := by
        simp [fingerprint_df]
      rw [h1, List.filter_cons]
      simpa using ih

/-- Every concrete bit vector an accumulated entry carries has the
configured width. -/
theorem runRows_bits_length (w : String → HttpOutcome) (c : String → Option (List Nat))
    (rows : List CompoundRow) (fps : List Entry) (msgs : List Msg)
    (h : runRows w c rows = .ok (fps, msgs)) (e : Entry) (he : e ∈ fps)
    (b : List Bool) (hb : e.2.2 = some b) : b.length = 2048 := by
  obtain ⟨r, _, m, hpr⟩ := runRows_entry_origin w c rows fps msgs h e he
  obtain ⟨sj, hesh, _⟩ := processRow_some_inv w c r e m hpr
  have h1 : (generate_fingerprint c sj).1 = some b := by
    rw [hesh] at hb
    simpa using hb
  have hgen : generate_fingerprint c sj = (some b, (generate_fingerprint c sj).2) := by
    rw [← h1]
  exact generate_fingerprint_some_length c sj b (generate_fingerprint c sj).2 hgen

/-! ## Claim theorems -/

/-- C1, counterexample: after a successful fetch with a truthy SMILES, the
row whose fingerprint generation fails is still appended to the accumulated
list (with the failure value in the fingerprint slot), and the emitted
message is error-level — the row is not skipped, refuting the claim that an
entry is appended only when both fetch and fingerprint generation succeed. -/
theorem c1_counterexample :
    runRows worldXYZ chemNone [row1]
      = .ok ([("CHEMBL1", JsonV.str "XYZ", none)], [Msg.error (invalidSmilesMsg "XYZ")]) := rfl

/-- C1, amended: an entry appears in the displayed result table only when
both fetch and fingerprint generation succeeded; a row whose fingerprint
generation failed is appended to the accumulated list with the failure
value, accompanied by an error-level message, and filtered out of the
displayed table (every displayed row corresponds to a success entry; every
accumulated entry originates from some input row's step; every failed-slot
entry has an error message in the log). -/
theorem c1_amended (w : String → HttpOutcome) (c : String → Option (List Nat))
    (rows : List CompoundRow) (fps : List Entry) (msgs : List Msg)
    (h : runRows w c rows = .ok (fps, msgs)) :
    (∀ x ∈ fingerprint_df fps, (x.1, x.2.1, some x.2.2) ∈ fps)
    ∧ (∀ e ∈ fps, ∃ r ∈ rows, ∃ m, processRow w c r = .ok (some e, m))
    ∧ (∀ e ∈ fps, e.2.2 = none → ∃ t, Msg.error t ∈ msgs) := by
  refine ⟨?_, ?_, ?_⟩
  · intro x hx
    exact (mem_fingerprint_df fps x).1 hx
  · exact runRows_entry_origin w c rows fps msgs h
  · exact runRows_failed_entry_error w c rows fps msgs h

/-- C1, witness for the amended theorem at a concrete failing run. -/
theorem c1_amended_witness :
    ∃ t, Msg.error t ∈ [Msg.error (invalidSmilesMsg "XYZ")] :=
  (c1_amended worldXYZ chemNone [row1] [("CHEMBL1", JsonV.str "XYZ", none)]
      [Msg.error (invalidSmilesMsg "XYZ")] rfl).2.2
    ("CHEMBL1", JsonV.str "XYZ", none) (by simp) rfl

/-- C2, counterexample: for a row whose fetch fails, two messages are
recorded — an error-level one mentioning the URL but not the identifier,
and a warning mentioning the identifier but not the URL — so no single
recorded warning mentions both the identifier and the URL, refuting the
claim as stated. -/
theorem c2_counterexample :
    runRows worldFail chemNone [row1]
      = .ok ([], [Msg.error (fetchErrMsg "u1"), Msg.warning (noDataMsg "CHEMBL1")])
    ∧ containsSub (noDataMsg "CHEMBL1") "u1" = false
    ∧ containsSub (fetchErrMsg "u1") "CHEMBL1" = false := by
  refine ⟨rfl, by decide, by decide⟩

/-- C2, amended: for every row whose remote fetch fails, the row step
appends nothing and records exactly two messages — one error mentioning the
URL and one warning mentioning the identifier; and if every row carrying an
identifier has a failing fetch, that identifier appears in no entry of the
final accumulated list. -/
theorem c2_amended (w : String → HttpOutcome) (c : String → Option (List Nat)) :
    (∀ r : CompoundRow, (w r.url = .netFail ∨ w r.url = .badJson) →
      processRow w c r = .ok (none,
        [Msg.error (fetchErrMsg r.url), Msg.warning (noDataMsg r.chembl_id)]))
    ∧ (∀ (rows : List CompoundRow) (fps : List Entry) (msgs : List Msg) (i : String),
        runRows w c rows = .ok (fps, msgs) →
        (∀ r ∈ rows, r.chembl_id = i → w r.url = .netFail ∨ w r.url = .badJson) →
        ∀ s b, (i, s, b) ∉ fps) :=
  ⟨fun r hr => processRow_fetchFail w c r hr,
   fun rows fps msgs i h hf => runRows_id_excluded w c i rows fps msgs h hf⟩

/-- C2, witness for the amended theorem at a concrete failing fetch. -/
theorem c2_amended_witness :
    processRow worldFail chemNone row1
      = .ok (none, [Msg.error (fetchErrMsg "u1"), Msg.warning (noDataMsg "CHEMBL1")])
    ∧ ∀ s b, ("CHEMBL1", s, b) ∉ ([] : List Entry) :=
  ⟨(c2_amended worldFail chemNone).1 row1 (Or.inl rfl),
   (c2_amended worldFail chemNone).2 [row1] [] _ "CHEMBL1" rfl
     (fun _ _ _ => Or.inl rfl)⟩

/-- C3: a table holding a row without exactly three fields makes the run
abort fatally before any row is processed: the outcome is the fatal one,
nothing is displayed and no download artifact is produced. -/
theorem c3_wrong_column_count_fatal (w : String → HttpOutcome)
    (c : String → Option (List Nat)) (table : List (List String))
    (h : ∃ r ∈ table, r.length ≠ 3) :
    (∃ e, main w c table = .fatal e)
    ∧ displayedResults (main w c table) = []
    ∧ downloadArtifact (main w c table) = none := by
  obtain ⟨e, he⟩ := parseInputTable_error table h
  have hm : main w c table = .fatal e := by simp [main, he]
  exact ⟨⟨e, hm⟩, by rw [hm]; rfl, by rw [hm]; rfl⟩

/-- C3, witness at a two-column table. -/
theorem c3_witness :
    (∃ e, main worldFail chemNone [["a", "b"]] = .fatal e)
    ∧ displayedResults (main worldFail chemNone [["a", "b"]]) = []
    ∧ downloadArtifact (main worldFail chemNone [["a", "b"]]) = none :=
  c3_wrong_column_count_fatal worldFail chemNone [["a", "b"]]
    ⟨["a", "b"], by simp, by decide⟩

/-- C4: a 2xx response whose body is not valid JSON is caught at the
fetcher (the JSON decode error is a `RequestException`): the row step
appends nothing and records an error plus a row-level warning, and the loop
on the remaining rows proceeds exactly as it would without this row — the
batch is never aborted by a malformed JSON body. -/
theorem c4_bad_json_nonfatal (w : String → HttpOutcome) (c : String → Option (List Nat))
    (r : CompoundRow) (rest : List CompoundRow) (h : w r.url = .badJson) :
    processRow w c r = .ok (none,
      [Msg.error (fetchErrMsg r.url), Msg.warning (noDataMsg r.chembl_id)])
    ∧ runRows w c (r :: rest) = (runRows w c rest).map
        (fun p => (p.1,
          Msg.error (fetchErrMsg r.url) :: Msg.warning (noDataMsg r.chembl_id) :: p.2)) := by
  have hpr := processRow_fetchFail w c r (Or.inr h)
  refine ⟨hpr, ?_⟩
  cases hrest : runRows w c rest <;> simp [runRows, hpr, hrest, Except.map]

/-- C4, witness at a concrete malformed-JSON row. -/
theorem c4_witness :
    processRow world1 chem1 rowBJ = .ok (none,
      [Msg.error (fetchErrMsg "u_badjson"), Msg.warning (noDataMsg "CHEMBLB")])
    ∧ runRows world1 chem1 [rowBJ] = (runRows world1 chem1 []).map
        (fun p => (p.1,
          Msg.error (fetchErrMsg "u_badjson") :: Msg.warning (noDataMsg "CHEMBLB") :: p.2)) :=
  c4_bad_json_nonfatal world1 chem1 rowBJ [] rfl

/-- C5: whenever fingerprint generation succeeds the returned bit vector
has exactly 2048 bits, and every row of the displayed result table of a
completed run carries a 2048-bit vector. -/
theorem c5_fingerprint_length (c : String → Option (List Nat)) :
    (∀ (s : JsonV) (fp : List Bool) (msgs : List Msg),
      generate_fingerprint c s = (some fp, msgs) → fp.length = 2048)
    ∧ (∀ (w : String → HttpOutcome) (rows : List CompoundRow)
        (fps : List Entry) (msgs : List Msg),
        runRows w c rows = .ok (fps, msgs) →
        ∀ x ∈ fingerprint_df fps, x.2.2.length = 2048) := by
  refine ⟨fun s fp msgs h => generate_fingerprint_some_length c s fp msgs h, ?_⟩
  intro w rows fps msgs h x hx
  have hmem := (mem_fingerprint_df fps x).1 hx
  exact runRows_bits_length w c rows fps msgs h (x.1, x.2.1, some x.2.2) hmem x.2.2 rfl

/-- C5, witness: a concrete successful generation and a concrete completed
run, both yielding 2048-bit vectors. -/
theorem c5_witness :
    (foldToBits [7, 4100]).length = 2048
    ∧ ("CHEMBLA", JsonV.str "CCO", foldToBits [7, 4100]).2.2.length = 2048 :=
  ⟨(c5_fingerprint_length chem1).1 (JsonV.str "CCO") (foldToBits [7, 4100]) [] rfl,
   (c5_fingerprint_length chem1).2 world1 [rowOk]
     [("CHEMBLA", JsonV.str "CCO", some (foldToBits [7, 4100]))] [] rfl
     ("CHEMBLA", JsonV.str "CCO", foldToBits [7, 4100]) (by simp [fingerprint_df])⟩

/-- C6: the displayed table of a completed run is the input row sequence
restricted, in order, to the fully succeeding rows, and the exported
artifact re-parses to the header followed by exactly those rows in the same
order — no reordering across successes. -/
theorem c6_order_preserved (w : String → HttpOutcome) (c : String → Option (List Nat))
    (rows : List CompoundRow) (fps : List Entry) (msgs : List Msg)
    (h : runRows w c rows = .ok (fps, msgs)) :
    fingerprint_df fps = rows.filterMap (rowResult w c)
    ∧ csvParse (exportCsv fps)
      = headerRow :: (rows.filterMap (rowResult w c)).map renderResult := by
  have h1 := runRows_df_order w c rows fps msgs h
  refine ⟨h1, ?_⟩
  rw [exportCsv_parse fps, h1]

/-- C6, witness at a concrete run mixing one success and one failure. -/
theorem c6_witness :
    fingerprint_df [("CHEMBLA", JsonV.str "CCO", some (foldToBits [7, 4100]))]
      = [rowOk, row1].filterMap (rowResult world1 chem1)
    ∧ csvParse (exportCsv [("CHEMBLA", JsonV.str "CCO", some (foldToBits [7, 4100]))])
      = headerRow
        :: ([rowOk, row1].filterMap (rowResult world1 chem1)).map renderResult :=
  c6_order_preserved world1 chem1 [rowOk, row1]
    [("CHEMBLA", JsonV.str "CCO", some (foldToBits [7, 4100]))]
    [Msg.error (fetchErrMsg "u1"), Msg.warning (noDataMsg "CHEMBL1")] rfl

/-- C7: with payloads of the shape the external interface contract
describes, the loop completes after the last row whatever the per-row
failures, a successfully parsed table always yields a completed run, and
the only fatal outcome arises from failure to parse the input table —
which happens before any row is processed. -/
theorem c7_termination (w : String → HttpOutcome) (c : String → Option (List Nat))
    (hcf : ∀ url j, w url = .ok j → crashFreeJson j = true) :
    (∀ rows : List CompoundRow, ∃ fps msgs, runRows w c rows = .ok (fps, msgs))
    ∧ (∀ (table : List (List String)) (rows : List CompoundRow),
        parseInputTable table = .ok rows →
        ∃ fps msgs, main w c table = .done fps msgs)
    ∧ (∀ (table : List (List String)) (e : String),
        main w c table = .fatal e → ∃ e2, parseInputTable table = .error e2) := by
  refine ⟨runRows_ok_of_crashFree w c hcf, ?_, ?_⟩
  · intro table rows hp
    obtain ⟨fps, msgs, hr⟩ := runRows_ok_of_crashFree w c hcf rows
    exact ⟨fps, msgs, by simp [main, hp, hr]⟩
  · intro table e hm
    cases hp : parseInputTable table with
    | error e2 => exact ⟨e2, rfl⟩
    | ok rows =>
      obtain ⟨fps, msgs, hr⟩ := runRows_ok_of_crashFree w c hcf rows
      have : main w c table = .done fps msgs := by simp [main, hp, hr]
      rw [this] at hm
      cases hm

/-- C7, witness: a run over rows exercising every per-row failure mode
completes. -/
theorem c7_witness :
    ∃ fps msgs, runRows world1 chem1 rowsAll = .ok (fps, msgs) :=
  (c7_termination world1 chem1
      (by
        intro url j hj
        unfold world1 at hj
        split_ifs at hj <;> (injection hj with hjj; subst hjj; rfl))).1
    rowsAll

/-- C8: a fetched payload whose `molecule_structures` object lacks
`canonical_smiles`, or carries it as JSON null, takes the "no SMILES
available" warning branch: the row appends nothing and the loop on the
remaining rows proceeds unchanged apart from the prepended warning. -/
theorem c8_missing_or_null_smiles (w : String → HttpOutcome)
    (c : String → Option (List Nat)) (r : CompoundRow)
    (fobj ms : List (String × JsonV))
    (hw : w r.url = .ok (JsonV.obj fobj))
    (hms : lookupJ fobj "molecule_structures" = some (JsonV.obj ms))
    (hcs : lookupJ ms "canonical_smiles" = none
      ∨ lookupJ ms "canonical_smiles" = some JsonV.null) :
    processRow w c r = .ok (none, [Msg.warning (noSmilesMsg r.chembl_id)])
    ∧ ∀ rest : List CompoundRow, runRows w c (r :: rest) = (runRows w c rest).map
        (fun p => (p.1, Msg.warning (noSmilesMsg r.chembl_id) :: p.2)) := by
  have hpr := processRow_noSmiles w c r fobj ms hw hms hcs
  refine ⟨hpr, fun rest => ?_⟩
  cases hrest : runRows w c rest <;> simp [runRows, hpr, hrest, Except.map]

/-- C8, witness: a concrete absent-SMILES payload and a concrete
JSON-null-SMILES payload both take the warning branch. -/
theorem c8_witness :
    processRow world1 chem1 rowNS = .ok (none, [Msg.warning (noSmilesMsg "CHEMBLN")])
    ∧ runRows world1 chem1 [rowNull] = (runRows world1 chem1 []).map
        (fun p => (p.1, Msg.warning (noSmilesMsg "CHEMBLZ") :: p.2)) :=
  ⟨(c8_missing_or_null_smiles world1 chem1 rowNS
      [("molecule_structures", JsonV.obj [])] [] rfl rfl (Or.inl rfl)).1,
   (c8_missing_or_null_smiles world1 chem1 rowNull
      [("molecule_structures", JsonV.obj [("canonical_smiles", JsonV.null)])]
      [("canonical_smiles", JsonV.null)] rfl rfl (Or.inr rfl)).2 []⟩

/-- C9: exporting an accumulated list and re-parsing the produced CSV
yields the header followed by exactly the displayed rows — the same
identifiers, structure texts and rendered bit strings, in the same
order. -/
theorem c9_export_roundtrip (fps : List Entry) :
    csvParse (exportCsv fps) = headerRow :: (fingerprint_df fps).map renderResult :=
  exportCsv_parse fps

/-- C10: the displayed and exported result table never contains a row
whose fingerprint is the failure value: every displayed row corresponds to
a success entry, exactly the success entries are displayed, and every
exported data row is the rendering of a success entry's concrete bit
vector. -/
theorem c10_no_failed_fingerprint_exported (fps : List Entry) :
    (∀ x ∈ fingerprint_df fps, (x.1, x.2.1, some x.2.2) ∈ fps)
    ∧ (fingerprint_df fps).length = (fps.filter (fun e => e.2.2.isSome)).length
    ∧ ∀ x ∈ (csvParse (exportCsv fps)).tail,
        ∃ e ∈ fps, ∃ b, e.2.2 = some b ∧ x = renderResult (e.1, e.2.1, b) := by
  refine ⟨fun x hx => (mem_fingerprint_df fps x).1 hx, fingerprint_df_length fps, ?_⟩
  intro x hx
  rw [exportCsv_parse fps] at hx
  simp only [List.tail_cons, List.mem_map] at hx
  obtain ⟨y, hy, hxy⟩ := hx
  refine ⟨(y.1, y.2.1, some y.2.2), (mem_fingerprint_df fps y).1 hy, y.2.2, rfl, ?_⟩
  rw [← hxy]

/-- C10, witness at a mixed accumulated list. -/
theorem c10_witness :
    ("CHEMBLA", JsonV.str "CCO", some ([true, false] : List Bool)) ∈ fpsMix
    ∧ (fingerprint_df fpsMix).length = (fpsMix.filter (fun e => e.2.2.isSome)).length :=
  ⟨(c10_no_failed_fingerprint_exported fpsMix).1
      ("CHEMBLA", JsonV.str "CCO", [true, false]) (by simp [fingerprint_df, fpsMix]),
   (c10_no_failed_fingerprint_exported fpsMix).2.1⟩

end Drug
